import Mathlib

/- Verification development for the makegrind build-trace analyser
   (src/makegrind/{node,graphs,util,reports}.py).

   Modelling conventions:
   * Python `datetime` values are epoch instants modelled as `Int`;
     `datetime.timedelta` values are modelled as `Int` durations
     (`datetime.fromtimestamp` is order- and difference-preserving, so the
     claims about elapsed times are insensitive to this choice).
   * A node's attribute dict (`Node.attrib`) is modelled as a record of
     `Option` fields: `some v` means the key is present with value `v`,
     `none` means the key is absent.
   * Raised Python exceptions are modelled with `Except PyErr`.
   * `networkx.DiGraph` is modelled as a list of keyed nodes (insertion
     order) plus a duplicate-free list of directed edges (insertion order);
     dict iteration order in CPython is insertion order.
   * Memoised `_start`/`_end`/... fields of `Node` are modelled explicitly in
     `TargetNode` (used for the cache-invalidation claims); graph-level
     algorithms read derived values through the pure functions over the
     attribute record, which `readElapsed_coherent`-style lemmas below relate
     to the memoised reads. -/

namespace Makegrind

/-- Errors that can escape the modelled operations.  The first block are
Python built-in exceptions raised implicitly by the code; `targetNotFound`
and `depChainNotFound` model `TargetNotFoundError` and
`DepChainNotFoundError` from `makegrind.exceptions` (that module is not part
of the sources here; only its use sites in `util.py` are, and they determine
which class each raise uses). -/
inductive PyErr where
  | nameError (missing : String)
  | typeError
  | attributeError (attr : String)
  | keyError (key : String)
  | valueError (msg : String)
  | indexError
  | nodeNotFound (key : String)
  | zeroDivisionError
  | targetNotFound (msg : String)
  | depChainNotFound (msg : String)
deriving DecidableEq, Repr

instance {ε α : Type} [DecidableEq ε] [DecidableEq α] : DecidableEq (Except ε α) :=
  fun a b =>
    match a, b with
    | Except.ok x, Except.ok y =>
      if h : x = y then Decidable.isTrue (by rw [h])
      else Decidable.isFalse (fun hh => h (Except.ok.inj hh))
    | Except.ok _, Except.error _ => Decidable.isFalse (fun hh => Except.noConfusion hh)
    | Except.error _, Except.ok _ => Decidable.isFalse (fun hh => Except.noConfusion hh)
    | Except.error e, Except.error f =>
      if h : e = f then Decidable.isTrue (by rw [h])
      else Decidable.isFalse (fun hh => h (Except.error.inj hh))

/-- Attribute dict of a `TargetNode` (node.py).  Field `endT` models the
`"end"` key; all fields are optional exactly as dict keys are. -/
structure TAttrib where
  name : Option String := none
  pid : Option String := none
  directory : Option String := none
  file : Option String := none
  line : Option Int := none
  start : Option Int := none
  endT : Option Int := none
  recipe : Option Int := none
  recursive : Option Bool := none
deriving DecidableEq, Repr

instance : Inhabited TAttrib := ⟨{}⟩

/-- `Node.elapsed` (node.py): `end - start` when both timestamps are
present, otherwise the zero duration. -/
def elapsedOf (a : TAttrib) : Int :=
  match a.endT, a.start with
  | some e, some s => e - s
  | _, _ => 0

/-- `TargetNode.elapsed_recipe` (node.py): `end - recipe` when both are
present, otherwise the zero duration. -/
def elapsedRecipeOf (a : TAttrib) : Int :=
  match a.endT, a.recipe with
  | some e, some r => e - r
  | _, _ => 0

/-- `Node.valid` for a `TargetNode`: the required attributes `name` and
`pid` must be present (`hasattr` resolves them through `__getattr__`, which
looks them up in the attribute dict). -/
def validTarget (a : TAttrib) : Bool :=
  a.name.isSome && a.pid.isSome

/-- `NodeInfo.elapsed_recipe` (node.py) as a pure value: zero when the node
is flagged recursive with `True`; when the `recursive` key is absent the
attribute lookup raises `AttributeError`, which `NodeInfo.__getattr__`
resolves by falling back to the raw node's `elapsed_recipe`. -/
def infoElapsedRecipe (a : TAttrib) : Int :=
  match a.recursive with
  | some true => 0
  | some false => elapsedRecipeOf a
  | none => elapsedRecipeOf a

/-- Attribute dict of a `BuildNode` (node.py). -/
structure BAttrib where
  pid : Option String := none
  directory : Option String := none
  start : Option Int := none
  endT : Option Int := none
  jobs : Option Int := none
  entry : Option (List String) := none
  parentPid : Option String := none
  parentTarget : Option String := none
  parentNested : Bool := false
deriving DecidableEq, Repr

instance : Inhabited BAttrib := ⟨{}⟩

/-- `Node.elapsed` for a build node. -/
def elapsedOfB (a : BAttrib) : Int :=
  match a.endT, a.start with
  | some e, some s => e - s
  | _, _ => 0

/-- `Node.valid` for a `BuildNode`: required attributes `pid` and
`directory`. -/
def validBuild (a : BAttrib) : Bool :=
  a.pid.isSome && a.directory.isSome

/-- A `networkx.DiGraph` whose node attribute dicts have type `α`: keyed
nodes in insertion order plus duplicate-free edges in insertion order. -/
structure PGraph (α : Type) where
  nodes : List (String × α) := []
  edges : List (String × String) := []
deriving DecidableEq, Repr

/-- Node keys in insertion order (`G.nodes`). -/
def keys {α : Type} (g : PGraph α) : List String :=
  g.nodes.map Prod.fst

/-- `G.nodes[k]`: the attribute dict of node `k` (the default is only
reached for keys that are not in the graph, where CPython would raise
`KeyError`; every use below is guarded by membership). -/
def attrOf {α : Type} [Inhabited α] (g : PGraph α) (k : String) : α :=
  match g.nodes.find? (fun kv => kv.1 == k) with
  | some kv => kv.2
  | none => default

/-- `G.add_node(k)` with no attributes: inserts a fresh empty attribute
dict unless the node already exists. -/
def addNodePG {α : Type} [Inhabited α] (g : PGraph α) (k : String) : PGraph α :=
  if k ∈ keys g then g else { g with nodes := g.nodes ++ [(k, default)] }

/-- In-place update of node `k`'s attribute dict. -/
def updateNodePG {α : Type} (g : PGraph α) (k : String) (f : α → α) : PGraph α :=
  { g with nodes := g.nodes.map (fun kv => if kv.1 == k then (kv.1, f kv.2) else kv) }

/-- `G.add_edge(u, v)`: silently creates missing endpoint nodes with empty
attribute dicts, then records the edge (a duplicate edge is a no-op). -/
def addEdgePG {α : Type} [Inhabited α] (g : PGraph α) (u v : String) : PGraph α :=
  if (u, v) ∈ (addNodePG (addNodePG g u) v).edges then addNodePG (addNodePG g u) v
  else { addNodePG (addNodePG g u) v with
         edges := (addNodePG (addNodePG g u) v).edges ++ [(u, v)] }

/-- `G.successors(u)` in adjacency (edge-insertion) order. -/
def successors {α : Type} (g : PGraph α) (u : String) : List String :=
  (g.edges.filter (fun e => e.1 == u)).map Prod.snd

/-- Fuel-bounded reachability along edges (`v` reachable from `u` by a
nonempty path of at most `fuel` edges).  With `fuel = g.nodes.length` this
is full reachability on any graph whose paths can be taken simple, in
particular on the acyclic graphs the claims quantify over. -/
def reachesB {α : Type} (g : PGraph α) : Nat → String → String → Bool
  | 0, _, _ => false
  | fuel + 1, u, v =>
    (successors g u).any (fun w => w == v || reachesB g fuel w v)

/-- `networkx.algorithms.dag.transitive_reduction` (graphs.py `reduced`):
an edge `u → v` is kept unless `v` is reachable from some other direct
successor of `u`. -/
def reducedEdges {α : Type} (g : PGraph α) : List (String × String) :=
  g.edges.filter (fun e =>
    !((successors g e.1).any (fun w => !(w == e.2) && reachesB g g.nodes.length w e.2)))

/-- Direct successors of `u` in the transitively reduced graph. -/
def reducedSuccessors {α : Type} (g : PGraph α) (u : String) : List String :=
  ((reducedEdges g).filter (fun e => e.1 == u)).map Prod.snd

/-- Python `max(l, key=f)` keeps the first maximal element; the fold
replaces the champion only on a strictly greater key. -/
def pyMaxAux {α : Type} (f : α → Int) : α → List α → α
  | b, [] => b
  | b, a :: l => pyMaxAux f (if f a > f b then a else b) l

/-- Python `max(l, key=f, default=None)`. -/
def pyMax {α : Type} (f : α → Int) : List α → Option α
  | [] => none
  | x :: l => some (pyMaxAux f x l)

/-- Node elapsed time as read by the graph algorithms
(`self.nodes[x].elapsed`). -/
def elapsedAt (g : PGraph TAttrib) (k : String) : Int :=
  elapsedOf (attrOf g k)

/-- `MakeGrindDiGraph.heaviest_child` (graphs.py): the reduced-graph
successor with the greatest elapsed time, `none` when there is none. -/
def heaviest_child (g : PGraph TAttrib) (u : String) : Option String :=
  pyMax (elapsedAt g) (reducedSuccessors g u)

/-- Loop body of `MakeGrindDiGraph.heaviest_path`: `while start:` stops on
a falsy key (`None` from `heaviest_child`, or the empty string). -/
def heaviestPathAux (g : PGraph TAttrib) : Nat → String → List String
  | 0, _ => []
  | fuel + 1, start =>
    start ::
      match heaviest_child g start with
      | none => []
      | some s => if s == "" then [] else heaviestPathAux g fuel s

/-- `MakeGrindDiGraph.heaviest_path(start)` with an explicit start key.
The Python generator is unbounded; the fuel `g.nodes.length + 1` is shown
below to never be exhausted on acyclic graphs, so the model yields the full
sequence there. -/
def heaviest_path (g : PGraph TAttrib) (start : String) : List String :=
  if start == "" then [] else heaviestPathAux g (g.nodes.length + 1) start

/-- Structural well-formedness of a graph built through the `add_*`
operations: edge endpoints are nodes and node keys are non-empty (target
keys always have the shape `pid:name`). -/
def wfB {α : Type} (g : PGraph α) : Bool :=
  g.edges.all (fun e => (keys g).contains e.1 && (keys g).contains e.2) &&
    (keys g).all (fun k => !(k == ""))

/-- One step of the heaviest path: `v` is a reduced-graph successor of `u`
whose elapsed time is greatest among all of `u`'s reduced-graph
successors. -/
def stepRel (g : PGraph TAttrib) (u v : String) : Prop :=
  v ∈ reducedSuccessors g u ∧
    ∀ w ∈ reducedSuccessors g u, elapsedAt g w ≤ elapsedAt g v

instance (g : PGraph TAttrib) (u v : String) : Decidable (stepRel g u v) := by
  unfold stepRel; infer_instance

/-- Remaining in-degree of `k` once the sources in `done` have been
processed (the value of `indegree_map[k]` in `networkx`'s Kahn loop). -/
def inDeg {α : Type} (g : PGraph α) (done : List String) (k : String) : Nat :=
  (g.edges.filter (fun e => e.2 == k && !(done.contains e.1))).length

/-- Kahn's algorithm as implemented by `networkx.topological_sort`: pop the
last zero-in-degree node, append newly freed children in edge order, yield
the popped node. -/
def kahnAux {α : Type} (g : PGraph α) : Nat → List String → List String → List String
  | 0, _, _ => []
  | fuel + 1, stack, done =>
    match stack.getLast? with
    | none => []
    | some node =>
      let done1 := done ++ [node]
      let stack1 := stack.dropLast ++
        (successors g node).filter (fun c => inDeg g done1 c == 0)
      node :: kahnAux g fuel stack1 done1

/-- `networkx.algorithms.dag.topological_sort` (used by `entry`). -/
def topoSort {α : Type} (g : PGraph α) : List String :=
  kahnAux g (g.nodes.length + 1)
    ((keys g).filter (fun v => inDeg g [] v == 0)) []

/-- `MakeGrindDiGraph.entry` (graphs.py): first structurally valid node in
topological order.  When none exists the code executes
`raise mg_exceptions.TargetNotFoundError(...)`, but `graphs.py` never
imports `mg_exceptions`, so what actually escapes is
`NameError: name 'mg_exceptions' is not defined`. -/
def entryCompute {α : Type} [Inhabited α] (g : PGraph α) (validB : α → Bool) :
    Except PyErr String :=
  match (topoSort g).find? (fun k => validB (attrOf g k)) with
  | some k => Except.ok k
  | none => Except.error (PyErr.nameError "mg_exceptions")

/-- `heaviest_path()` with no start: the start defaults to the entry
point's key. -/
def heaviestPathDefault (g : PGraph TAttrib) : Except PyErr (List String) :=
  (entryCompute g validTarget).map (heaviest_path g)

/-- `TargetNode.nodekey` (node.py): `"{pid}:{name}"`. -/
def nodekey (pid name : String) : String :=
  pid ++ ":" ++ name

/-- One target record of the ingestion input (§6 of the trace format):
`name` is mandatory, the remaining fields are optional dict keys. -/
structure TargetRecord where
  name : String
  file : Option String := none
  line : Option Int := none
  start : Option Int := none
  endT : Option Int := none
  recipe : Option Int := none
  depends : List String := []
deriving DecidableEq, Repr

/-- The parent-independent fields of one build-process record. -/
structure BRecCore where
  pid : String
  directory : Option String := none
  start : Option Int := none
  endT : Option Int := none
  jobs : Option Int := none
  entry : Option (List String) := none
  targets : List TargetRecord := []
deriving DecidableEq, Repr

/-- The value stored under a record's `parent` key: either the flat
back-reference dict `{pid, target}` or a full nested parent record (which
additionally carries the invoking target's name, as the code reads
`parent["pid"]` and `parent["target"]` from it).  The code never reads any
other key of the parent dict, and nesting deeper than one level is likewise
never inspected, so one level suffices to express the ingestion model. -/
inductive PVal where
  | ref (pid target : String)
  | full (pid target : String) (core : BRecCore)
deriving DecidableEq, Repr

/-- `parent["pid"]`. -/
def PVal.pid : PVal → String
  | .ref p _ => p
  | .full p _ _ => p

/-- `parent["target"]`. -/
def PVal.target : PVal → String
  | .ref _ t => t
  | .full _ t _ => t

/-- One build-process record of the ingestion input. -/
structure BuildRecord where
  core : BRecCore
  parent : Option PVal := none
deriving DecidableEq, Repr

/-- `BuildDiGraph` (graphs.py): the process graph together with its single
shared target graph.  The stored `parentPid`/`parentTarget`/`parentNested`
attribute fields of `BAttrib` model the `parent` dict kept on the build
node by `add_node(key, **build)` (`parentNested` records whether the stored
dict was a full nested record rather than a flat back-reference). -/
structure BuildGraph where
  builds : PGraph BAttrib := {}
  targets : PGraph TAttrib := {}
deriving DecidableEq, Repr

/-- Dict update of a target node's attributes by a target record whose
`depends` key has already been popped and whose `pid` and `directory` keys
were injected by `TargetDiGraph.add_nodes_from_build`: keys present in the
record overwrite, absent keys keep the old value. -/
def mergeTargetAttrib (old : TAttrib) (pid dir : String) (t : TargetRecord) : TAttrib :=
  { old with
    name := some t.name
    pid := some pid
    directory := some dir
    file := t.file <|> old.file
    line := t.line <|> old.line
    start := t.start <|> old.start
    endT := t.endT <|> old.endT
    recipe := t.recipe <|> old.recipe }

/-- `TargetDiGraph.add_target` (graphs.py): upsert the node keyed
`pid:name`, update its attributes, then add one dependency edge per popped
dependency name (resolved within the same process), creating missing
dependency nodes with empty attribute dicts. -/
def add_target (tg : PGraph TAttrib) (pid dir : String) (t : TargetRecord) :
    PGraph TAttrib :=
  t.depends.foldl
    (fun h d => addEdgePG h (nodekey pid t.name) (nodekey pid d))
    (updateNodePG (addNodePG tg (nodekey pid t.name)) (nodekey pid t.name)
      (fun a => mergeTargetAttrib a pid dir t))

/-- `TargetDiGraph.add_parent_edges` (graphs.py): for each entry-target key
of the child build, add an edge from the parent's invoking target and flag
that target recursive. -/
def add_parent_edges (tg : PGraph TAttrib) (entryKeys : List String)
    (ppid ptarget : String) : PGraph TAttrib :=
  let pkey := nodekey ppid ptarget
  entryKeys.foldl
    (fun h e =>
      updateNodePG (addEdgePG h pkey e) pkey (fun a => { a with recursive := some true }))
    tg

/-- Dict update of a build node's attributes by a build record whose
`targets` key has already been popped (`add_node(key, **build)`). -/
def mergeBuildAttrib (old : BAttrib) (b : BuildRecord) : BAttrib :=
  { old with
    pid := some b.core.pid
    directory := b.core.directory <|> old.directory
    start := b.core.start <|> old.start
    endT := b.core.endT <|> old.endT
    jobs := b.core.jobs <|> old.jobs
    entry := b.core.entry <|> old.entry
    parentPid := (b.parent.map PVal.pid) <|> old.parentPid
    parentTarget := (b.parent.map PVal.target) <|> old.parentTarget
    parentNested :=
      match b.parent with
      | some (PVal.full _ _ _) => true
      | some (PVal.ref _ _) => false
      | none => old.parentNested }

/-- `BuildNode.entry` (node.py): the child's entry-target keys
`attrib["pid"] : name` for each name in `attrib["entry"]`; a missing
`entry` key raises `KeyError` (and a missing `pid` key does as soon as one
name is produced). -/
def entryKeysOf (a : BAttrib) : Except PyErr (List String) :=
  match a.entry with
  | none => Except.error (PyErr.keyError "entry")
  | some es =>
    if es.isEmpty then Except.ok []
    else
      match a.pid with
      | none => Except.error (PyErr.keyError "pid")
      | some p => Except.ok (es.map (fun n => nodekey p n))

/-- `BuildDiGraph.add_nodes_from_build` (graphs.py): pop the targets, add
or update the process node, ingest its targets using the stored node's
`pid` and `directory` attributes, then, when a `parent` key is present, add
the process edge `parent["pid"] → pid` and the recursive target edges.  The
parent dict is read only through `parent["pid"]` and `parent["target"]`. -/
def add_nodes_from_build (g : BuildGraph) (b : BuildRecord) :
    Except PyErr BuildGraph := do
  let key := b.core.pid
  let builds1 := addNodePG g.builds key
  let builds2 := updateNodePG builds1 key (fun a => mergeBuildAttrib a b)
  let ba := attrOf builds2 key
  let pid ← match ba.pid with
    | some p => Except.ok p
    | none => Except.error (PyErr.keyError "pid")
  let dir ← match ba.directory with
    | some d => Except.ok d
    | none => Except.error (PyErr.attributeError "directory")
  let tg1 := b.core.targets.foldl (fun h t => add_target h pid dir t) g.targets
  match b.parent with
  | none => Except.ok { builds := builds2, targets := tg1 }
  | some pv => do
    let builds3 := addEdgePG builds2 pv.pid key
    let ekeys ← entryKeysOf ba
    let tg2 := add_parent_edges tg1 ekeys pv.pid pv.target
    Except.ok { builds := builds3, targets := tg2 }

/-- Repeated `add_nodes_from_build` calls composing a flat stream of
process records into one trace (§6). -/
def addBuilds (g : BuildGraph) (bs : List BuildRecord) : Except PyErr BuildGraph :=
  bs.foldlM add_nodes_from_build g

/-- `BuildDiGraph.from_build` (graphs.py): a fresh graph fed one root
record. -/
def from_build (b : BuildRecord) : Except PyErr BuildGraph :=
  add_nodes_from_build {} b

/-- `os.path.join(a, b)` for the shapes used here: an absolute second
component wins (no separator normalisation is modelled; the inputs in the
claims are already normalised). -/
def joinPath (a b : String) : String :=
  if b.startsWith "/" then b else a ++ "/" ++ b

/-- Path components, with empty and `.` components dropped. -/
def pathComponents (p : String) : List String :=
  (p.splitOn "/").filter (fun c => !(c == "") && !(c == "."))

/-- `os.path.basename`. -/
def basename (p : String) : String :=
  ((p.splitOn "/").getLast?).getD ""

/-- Component form of `os.path.relpath`: strip the common prefix, then one
`..` per remaining component of the base. -/
def relComponents : List String → List String → List String
  | p, [] => p
  | [], b => b.map (fun _ => "..")
  | a :: as, b :: bs =>
    if a == b then relComponents as bs
    else ((b :: bs).map (fun _ => "..")) ++ a :: as

/-- `os.path.relpath(p, base)` on normalised absolute paths. -/
def relpathStr (p base : String) : String :=
  let rc := relComponents (pathComponents p) (pathComponents base)
  if rc.isEmpty then "." else String.intercalate "/" rc

/-- `BuildDiGraph.relpath` (graphs.py): absolute paths are made relative
to the build root; a resulting bare `.` becomes the root directory's base
name; `None` passes through. -/
def relpathOpt (pre : String) (p : Option String) : Option String :=
  let p1 := match p with
    | some s => if s.startsWith "/" then some (relpathStr s pre) else some s
    | none => none
  if p1 == some "." then some (basename pre) else p1

/-- `resolve_path` (util.py): absolutise against the cwd, keep the result
if the build root is a character-wise prefix of it (`os.path.commonprefix`
equality), otherwise re-join the original path under the build root; then
relativise to the build root. -/
def resolve_path (pre cwd path : String) : String :=
  let absPath := if path.startsWith "/" then path else joinPath cwd path
  let p2 := if absPath.startsWith pre then absPath else joinPath pre path
  (relpathOpt pre (some p2)).getD p2

/-- `TargetNode.path` (node.py): `os.path.join(directory, file)` when both
are present and truthy (an empty string is falsy), else `None`. -/
def pathOf (a : TAttrib) : Option String :=
  match a.file, a.directory with
  | some f, some d => if f == "" || d == "" then none else some (joinPath d f)
  | _, _ => none

/-- `BuildDiGraph.prefix` (graphs.py): the entry process's directory. -/
def prefixOf (g : BuildGraph) : Except PyErr String := do
  let ek ← entryCompute g.builds validBuild
  match (attrOf g.builds ek).directory with
  | some d => Except.ok d
  | none => Except.error (PyErr.attributeError "directory")

/-- The per-node filter of `find_target` (util.py `checker`), in source
evaluation order; attribute lookups that fall through to a missing dict
key raise `AttributeError`. -/
def checkerC (pre : String) (target mf pid : Option String) (a : TAttrib) :
    Except PyErr Bool := do
  match target with
  | some t => do
    let nm ← match a.name with
      | some nm => Except.ok nm
      | none => Except.error (PyErr.attributeError "name")
    if nm ≠ t then return false
  | none => pure ()
  match mf with
  | some m => do
    if relpathOpt pre (pathOf a) ≠ some m then do
      let d ← match a.directory with
        | some d => Except.ok d
        | none => Except.error (PyErr.attributeError "directory")
      if relpathOpt pre (some d) ≠ some m then return false
  | none => pure ()
  match pid with
  | some p => do
    let np ← match a.pid with
      | some np => Except.ok np
      | none => Except.error (PyErr.attributeError "pid")
    if np ≠ p then return false
  | none => pure ()
  return true

/-- Python `filter` with an effectful predicate, fully consumed (as
`sorted` does), first exception wins. -/
def filterE {α : Type} (p : α → Except PyErr Bool) : List α → Except PyErr (List α)
  | [] => Except.ok []
  | a :: l => do
    let b ← p a
    let r ← filterE p l
    Except.ok (if b then a :: r else r)

/-- Stable insertion used to model Python `sorted`: the new element goes
after every element the comparison keeps before it. -/
def insertA {α : Type} (le : α → α → Bool) : List α → α → List α
  | [], a => [a]
  | b :: l, a => if le b a then b :: insertA le l a else a :: b :: l

/-- Python `sorted(l, key=key)`: stable, ascending. -/
def pySorted {α : Type} (key : α → Int) (l : List α) : List α :=
  l.foldl (fun acc a => insertA (fun x y => decide (key x ≤ key y)) acc a) []

/-- Python `sorted(l, key=key, reverse=True)`: stable, descending. -/
def pySortedRev {α : Type} (key : α → Int) (l : List α) : List α :=
  l.foldl (fun acc a => insertA (fun x y => decide (key y ≤ key x)) acc a) []

/-- The `TargetNotFoundError` message assembled by `find_target` for an
empty result (quoting of the filter values is elided). -/
def notFoundMsg (target mf pid : Option String) : String :=
  String.intercalate " "
    (["No targets"]
      ++ (match target with | some t => ["named " ++ t] | none => [])
      ++ (match mf with | some m => ["in file " ++ m] | none => [])
      ++ (match pid with | some p => ["with pid " ++ p] | none => []))

/-- `find_target` (util.py): requires at least one filter (else it raises
`TargetNotFoundError("No filtering criteria")`), filters the target nodes,
sorts the matches by elapsed time with Python `sorted` (ascending), and
raises `TargetNotFoundError` with a filter description when nothing
matched.  `cwd` stands for the process working directory consulted by
`os.path.abspath`. -/
def find_target (g : BuildGraph) (cwd : String) (target makefile pid : Option String) :
    Except PyErr (List String) := do
  if target.isNone && makefile.isNone && pid.isNone then
    throw (PyErr.targetNotFound "No filtering criteria")
  let res : Option (String × String) ← match makefile with
    | none => pure none
    | some m => do
      let pre ← prefixOf g
      pure (some (resolve_path pre cwd m, pre))
  let mf := res.map Prod.fst
  let pre := (res.map Prod.snd).getD ""
  let matched ← filterE (fun kv => checkerC pre target mf pid kv.2) g.targets.nodes
  let sortedL := pySorted (fun kv => elapsedOf kv.2) matched
  if sortedL.isEmpty then
    throw (PyErr.targetNotFound (notFoundMsg target mf pid))
  return sortedL.map Prod.fst

/-- DFS enumeration of the simple paths `u → tgt` avoiding `visited`, in
adjacency order, as `networkx.all_simple_paths` produces them. -/
def simplePathsAux {α : Type} (tg : PGraph α) :
    Nat → String → String → List String → List (List String)
  | 0, _, _, _ => []
  | fuel + 1, u, tgt, visited =>
    if u == tgt then [[u]]
    else
      let vis := visited ++ [u]
      ((successors tg u).filter (fun v => !(vis.contains v))).flatMap
        (fun v => (simplePathsAux tg fuel v tgt vis).map (fun p => u :: p))

/-- `networkx.algorithms.simple_paths.all_simple_paths`: missing endpoint
nodes raise `NodeNotFound`; a source equal to the target yields nothing. -/
def all_simple_paths {α : Type} (tg : PGraph α) (src tgt : String) :
    Except PyErr (List (List String)) :=
  if src ∉ keys tg then Except.error (PyErr.nodeNotFound src)
  else if tgt ∉ keys tg then Except.error (PyErr.nodeNotFound tgt)
  else if src == tgt then Except.ok []
  else Except.ok (simplePathsAux tg (tg.nodes.length + 1) src tgt [])

/-- `graph.entry.entry`: the entry process's entry-target keys. -/
def entryTargets (g : BuildGraph) : Except PyErr (List String) := do
  let ek ← entryCompute g.builds validBuild
  entryKeysOf (attrOf g.builds ek)

/-- `graph.targets.info(k)` construction: `KeyError` when `k` is not a
node. -/
def getNodeAttr (tg : PGraph TAttrib) (k : String) : Except PyErr TAttrib :=
  match tg.nodes.find? (fun kv => kv.1 == k) with
  | some kv => Except.ok kv.2
  | none => Except.error (PyErr.keyError k)

/-- `graph.targets.info(k).elapsed` (the info view forwards `elapsed` to
the raw node). -/
def infoElapsedAt (tg : PGraph TAttrib) (k : String) : Except PyErr Int := do
  let a ← getNodeAttr tg k
  pure (elapsedOf a)

/-- `l[1]` with Python `IndexError`. -/
def secondOf (l : List String) : Except PyErr String :=
  match l.get? 1 with
  | some x => Except.ok x
  | none => Except.error PyErr.indexError

/-- `l[-1]` with Python `IndexError`. -/
def lastOf (l : List String) : Except PyErr String :=
  match l.getLast? with
  | some x => Except.ok x
  | none => Except.error PyErr.indexError

/-- `find_path` (util.py).  With no waypoints: the heaviest path from the
entry target with the greatest elapsed time.  With waypoints: for the hop
from each build entry target to the first waypoint the comparison between
candidate simple paths reads both second-node elapsed times; for every
later hop the source compares `info(next_segment[1]).elapsed` against the
bare info object `info(segment[1])` (the `.elapsed` is missing), so as soon
as a second candidate segment exists the comparison raises `TypeError`.
Chosen segments are stitched with `path.extend(segment[1:])` and the
heaviest-path suffix from the last waypoint is appended the same way. -/
def find_path (g : BuildGraph) (targets : List String) : Except PyErr (List String) := do
  match targets with
  | [] => do
    let es ← entryTargets g
    let pairs ← es.mapM (fun k => do
        let v ← infoElapsedAt g.targets k
        pure (k, v))
    match pyMax Prod.snd pairs with
    | none => throw (PyErr.valueError "max() arg is an empty sequence")
    | some kv => pure (heaviest_path g.targets kv.1)
  | t0 :: rest => do
    let es ← entryTargets g
    let path0 ← es.foldlM (fun acc entry => do
        let segs ← all_simple_paths g.targets entry t0
        segs.foldlM (fun acc2 seg => do
            match acc2 with
            | none => pure (some seg)
            | some p => do
              let a ← infoElapsedAt g.targets (← secondOf p)
              let b ← infoElapsedAt g.targets (← secondOf seg)
              pure (if a < b then some seg else some p))
          acc)
      (none : Option (List String))
    let path1 ← match path0 with
      | none => throw (PyErr.depChainNotFound "Unable to find path to first target")
      | some p => pure p
    let path2 ← rest.foldlM (fun path tgt => do
        let src ← lastOf path
        let segs ← all_simple_paths g.targets src tgt
        let nextSeg ← segs.foldlM (fun acc seg => do
            match acc with
            | none => pure (some seg)
            | some p => do
              let _ ← infoElapsedAt g.targets (← secondOf p)
              let s ← secondOf seg
              let _ ← getNodeAttr g.targets s
              throw PyErr.typeError)
          (none : Option (List String))
        match nextSeg with
        | none => throw (PyErr.depChainNotFound "Unable to find path between targets")
        | some seg => pure (path ++ seg.drop 1))
      path1
    let last ← lastOf path2
    pure (path2 ++ (heaviest_path g.targets last).drop 1)

/-- The structured result of `TopRecipesReport.__generate__` (reports.py).
`recipeTotal` is the value the report stores under `"recipe"`; the
parallelism ratio is kept as its numerator/denominator pair (the code
divides and rounds them for display); `rows` keeps the selected target
nodes in report order (their per-field rendering by `target_report` is not
modelled). -/
structure TopRecipesData where
  total : Int
  recipeTotal : Int
  jobsField : Option (Option Int) := none
  ratNum : Option Int := none
  ratDen : Option Int := none
  rows : List TAttrib := []
deriving DecidableEq, Repr

/-- `TopRecipesReport.__generate__` (reports.py): sort the non-recursive
targets by info-view recipe-elapsed descending, sum `x.elapsed` over all of
them into the `"recipe"` field (the source sums `elapsed`, not
`elapsed_recipe`), emit the parallelism block when `jobs` is truthy, and
keep the first `maxEntries` rows. -/
def topRecipesGen (g : BuildGraph) (maxEntries : Nat) : Except PyErr TopRecipesData := do
  let ek ← entryCompute g.builds validBuild
  let ea := attrOf g.builds ek
  let total := elapsedOfB ea
  let targetsSorted :=
    pySortedRev (fun a => infoElapsedRecipe a)
      ((g.targets.nodes.map Prod.snd).filter (fun a => !(a.recursive.getD false)))
  let recipeTotal := (targetsSorted.map (fun a => elapsedOf a)).sum
  let jb ← match ea.jobs with
    | some j => Except.ok j
    | none => Except.error (PyErr.keyError "jobs")
  if jb == -1 then
    pure { total := total, recipeTotal := recipeTotal,
           rows := targetsSorted.take maxEntries }
  else do
    if total == 0 then throw PyErr.zeroDivisionError
    pure { total := total, recipeTotal := recipeTotal,
           jobsField := some (if jb == 0 then none else some jb),
           ratNum := some recipeTotal, ratDen := some total,
           rows := targetsSorted.take maxEntries }

/-- A `TargetNode` (node.py) with its memoised fields made explicit.  A
cache field holds `none` when the Python slot is `None` (cleared); a cached
slot `some v` stores `v = none` for the Python sentinel `False` (attribute
absent) and `v = some t` for a computed timestamp. -/
structure TargetNode where
  attrib : TAttrib := {}
  cacheStart : Option (Option Int) := none
  cacheEnd : Option (Option Int) := none
  cacheElapsed : Option Int := none
  cacheRecipe : Option (Option Int) := none
  cacheElapsedRecipe : Option Int := none
deriving DecidableEq, Repr

/-- The `Node.start` property read: returns the (possibly cached) value
together with the node with its cache filled. -/
def readStart (n : TargetNode) : Option Int × TargetNode :=
  match n.cacheStart with
  | some v => (v, n)
  | none => (n.attrib.start, { n with cacheStart := some n.attrib.start })

/-- The `Node.end` property read. -/
def readEnd (n : TargetNode) : Option Int × TargetNode :=
  match n.cacheEnd with
  | some v => (v, n)
  | none => (n.attrib.endT, { n with cacheEnd := some n.attrib.endT })

/-- The `TargetNode.recipe` property read. -/
def readRecipe (n : TargetNode) : Option Int × TargetNode :=
  match n.cacheRecipe with
  | some v => (v, n)
  | none => (n.attrib.recipe, { n with cacheRecipe := some n.attrib.recipe })

/-- The `Node.elapsed` property read: consults `end` then `start` (filling
their caches), yielding the zero duration when either is absent. -/
def readElapsed (n : TargetNode) : Int × TargetNode :=
  match n.cacheElapsed with
  | some v => (v, n)
  | none =>
    let (e, n1) := readEnd n
    let (s, n2) := readStart n1
    let v : Int :=
      match e, s with
      | some ev, some sv => ev - sv
      | _, _ => 0
    (v, { n2 with cacheElapsed := some v })

/-- The `TargetNode.elapsed_recipe` property read. -/
def readElapsedRecipe (n : TargetNode) : Int × TargetNode :=
  match n.cacheElapsedRecipe with
  | some v => (v, n)
  | none =>
    let (e, n1) := readEnd n
    let (r, n2) := readRecipe n1
    let v : Int :=
      match e, r with
      | some ev, some rv => ev - rv
      | _, _ => 0
    (v, { n2 with cacheElapsedRecipe := some v })

/-- `NodeInfo.elapsed_recipe` (node.py) against the memoised node: zero
when the node's `recursive` attribute is literally `True`; otherwise (the
key holds `False`, or is absent so the lookup's `AttributeError` makes
attribute resolution fall back to `NodeInfo.__getattr__`, which forwards to
the raw node) the raw `elapsed_recipe` read. -/
def infoElapsedRecipeRead (n : TargetNode) : Int × TargetNode :=
  match n.attrib.recursive with
  | some true => (0, n)
  | some false => readElapsedRecipe n
  | none => readElapsedRecipe n

/-- One attribute write `node[key] = value` (every attribute dict key, each
with a value of its type). -/
inductive AttrWrite where
  | wName (v : Option String)
  | wPid (v : Option String)
  | wDirectory (v : Option String)
  | wFile (v : Option String)
  | wLine (v : Option Int)
  | wStart (v : Option Int)
  | wEnd (v : Option Int)
  | wRecipe (v : Option Int)
  | wRecursive (v : Option Bool)
deriving DecidableEq, Repr

/-- The dict mutation performed by a write. -/
def applyWrite (a : TAttrib) : AttrWrite → TAttrib
  | .wName v => { a with name := v }
  | .wPid v => { a with pid := v }
  | .wDirectory v => { a with directory := v }
  | .wFile v => { a with file := v }
  | .wLine v => { a with line := v }
  | .wStart v => { a with start := v }
  | .wEnd v => { a with endT := v }
  | .wRecipe v => { a with recipe := v }
  | .wRecursive v => { a with recursive := v }

/-- `Node.__setitem__` (node.py): `self.clear()` resets every memoised
field to `None`, then the attribute dict is updated. -/
def setItem (n : TargetNode) (w : AttrWrite) : TargetNode :=
  { attrib := applyWrite n.attrib w,
    cacheStart := none, cacheEnd := none, cacheElapsed := none,
    cacheRecipe := none, cacheElapsedRecipe := none }

/-- Cache coherence of a memoised node: every filled cache slot holds the
value recomputation would produce from the current attribute dict. -/
def coherentN (n : TargetNode) : Prop :=
  (n.cacheStart = none ∨ n.cacheStart = some n.attrib.start) ∧
  (n.cacheEnd = none ∨ n.cacheEnd = some n.attrib.endT) ∧
  (n.cacheElapsed = none ∨ n.cacheElapsed = some (elapsedOf n.attrib)) ∧
  (n.cacheRecipe = none ∨ n.cacheRecipe = some n.attrib.recipe) ∧
  (n.cacheElapsedRecipe = none ∨ n.cacheElapsedRecipe = some (elapsedRecipeOf n.attrib))

instance (n : TargetNode) : Decidable (coherentN n) := by
  unfold coherentN; infer_instance

/-- A `MakeGrindDiGraph` with its class-level caches `_reduced` and
`_entry` made explicit (graphs.py `__cached__`). -/
structure CachedGraph where
  g : PGraph TAttrib := {}
  cacheReduced : Option (List (String × String)) := none
  cacheEntry : Option String := none
deriving DecidableEq, Repr

/-- `MakeGrindDiGraph.clear` (graphs.py): resets the cached attributes
(and only them — the `networkx` meaning of `clear` is overridden away). -/
def clearCaches (s : CachedGraph) : CachedGraph :=
  { s with cacheReduced := none, cacheEntry := none }

/-- The `reduced` property read: the cached transitive reduction when one
is stored, else it is computed and stored. -/
def readReduced (s : CachedGraph) : List (String × String) × CachedGraph :=
  match s.cacheReduced with
  | some r => (r, s)
  | none =>
    let r := reducedEdges s.g
    (r, { s with cacheReduced := some r })

/-- The `entry` property read with its `_entry` memoisation. -/
def readEntry (s : CachedGraph) (validB : TAttrib → Bool) :
    Except PyErr (String × CachedGraph) :=
  match s.cacheEntry with
  | some k => Except.ok (k, s)
  | none =>
    match entryCompute s.g validB with
    | Except.ok k => Except.ok (k, { s with cacheEntry := some k })
    | Except.error e => Except.error e

/-- `G.add_edge` on the cached graph: the `networkx` mutator touches only
the underlying graph, never the cached attributes. -/
def addEdgeC (s : CachedGraph) (u v : String) : CachedGraph :=
  { s with g := addEdgePG s.g u v }

/-- `G.add_node` on the cached graph. -/
def addNodeC (s : CachedGraph) (k : String) : CachedGraph :=
  { s with g := addNodePG s.g k }

/-- Whether a lookup result is a raised `TargetNotFoundError` (of any
message): the error KIND used by `find_target` both for the no-filter case
and for the empty-result case. -/
def errKindTNF : Except PyErr (List String) → Bool
  | .error (.targetNotFound _) => true
  | _ => false

/- Concrete fixtures used to evaluate the definitions. -/

/-- A diamond-with-shortcut target graph: `a → b → d`, `a → c → d` and the
redundant shortcut `a → d` (which transitive reduction removes). -/
def gHP : PGraph TAttrib :=
  { nodes :=
      [("1:a", { name := some "a", pid := some "1", start := some 0, endT := some 10 }),
       ("1:b", { name := some "b", pid := some "1", start := some 0, endT := some 5 }),
       ("1:c", { name := some "c", pid := some "1", start := some 0, endT := some 7 }),
       ("1:d", { name := some "d", pid := some "1", start := some 0, endT := some 3 })],
    edges := [("1:a", "1:b"), ("1:a", "1:c"), ("1:b", "1:d"), ("1:c", "1:d"),
              ("1:a", "1:d")] }

/-- A topological rank witnessing that `gHP` is acyclic. -/
def rankHP : String → Nat :=
  fun k => if k == "1:a" then 0 else if k == "1:d" then 2 else 1

/-- A process graph whose first node in topological order is invalid
(missing `directory`) while the second is valid. -/
def gEntry : PGraph BAttrib :=
  { nodes :=
      [("1", { pid := some "1" }),
       ("2", { pid := some "2", directory := some "/s" })],
    edges := [("1", "2")] }

/-- A process graph with one structurally invalid node (empty attribute
dict). -/
def gInvalid : PGraph BAttrib :=
  { nodes := [("9", {})], edges := [] }

/-- A build with two targets that differ in elapsed time (9 vs 2),
inserted slowest-first. -/
def gFT : BuildGraph :=
  { builds :=
      { nodes := [("1", { pid := some "1", directory := some "/s", start := some 0,
                          endT := some 100, jobs := some (-1), entry := some ["a"] })],
        edges := [] },
    targets :=
      { nodes :=
          [("1:a", { name := some "a", pid := some "1", directory := some "/s",
                     start := some 0, endT := some 9 }),
           ("1:b", { name := some "b", pid := some "1", directory := some "/s",
                     start := some 0, endT := some 2 })],
        edges := [] } }

/-- Target attributes for the TopRecipes fixture. -/
def taA : TAttrib :=
  { name := some "a", pid := some "1", directory := some "/s",
    start := some 0, endT := some 50, recipe := some 40 }

def taB : TAttrib :=
  { name := some "b", pid := some "1", directory := some "/s",
    start := some 0, endT := some 30, recipe := some 25 }

def taC : TAttrib :=
  { name := some "c", pid := some "1", directory := some "/s",
    start := some 0, endT := some 20, recipe := some 4 }

def taD : TAttrib :=
  { name := some "d", pid := some "1", directory := some "/s",
    start := some 0, endT := some 5, recipe := some 3 }

def taE : TAttrib :=
  { name := some "e", pid := some "1", directory := some "/s",
    start := some 0, endT := some 8, recipe := some 0 }

/-- A build with five distinct non-recursive targets whose elapsed times
(50, 30, 20, 5, 8) differ from their recipe-elapsed times
(10, 5, 16, 2, 8). -/
def gTR : BuildGraph :=
  { builds :=
      { nodes := [("1", { pid := some "1", directory := some "/s", start := some 0,
                          endT := some 100, jobs := some 4, entry := some ["a"] })],
        edges := [] },
    targets :=
      { nodes := [("1:a", taA), ("1:b", taB), ("1:c", taC), ("1:d", taD), ("1:e", taE)],
        edges := [] } }

/-- A build whose target graph has two simple paths from waypoint `1:a` to
waypoint `1:b` (directly, and through `1:c`). -/
def gFP : BuildGraph :=
  { builds :=
      { nodes := [("1", { pid := some "1", directory := some "/s", start := some 0,
                          endT := some 100, jobs := some (-1), entry := some ["e"] })],
        edges := [] },
    targets :=
      { nodes :=
          [("1:e", { name := some "e", pid := some "1", start := some 0, endT := some 90 }),
           ("1:a", { name := some "a", pid := some "1", start := some 0, endT := some 60 }),
           ("1:b", { name := some "b", pid := some "1", start := some 0, endT := some 20 }),
           ("1:c", { name := some "c", pid := some "1", start := some 10, endT := some 50 })],
        edges := [("1:e", "1:a"), ("1:a", "1:b"), ("1:a", "1:c"), ("1:c", "1:b")] } }

/-- Root process record of the two-process trace. -/
def coreP : BRecCore :=
  { pid := "1", directory := some "/s", start := some 0, endT := some 100,
    jobs := some (-1), entry := some ["x"],
    targets := [{ name := "x", start := some 0, endT := some 50, recipe := some 30 }] }

/-- Child process record material (invoked by target `x` of process 1). -/
def coreQ : BRecCore :=
  { pid := "2", directory := some "/s/sub", start := some 1, endT := some 40,
    jobs := some (-1), entry := some ["y"],
    targets := [{ name := "y", start := some 1, endT := some 35 }] }

/-- The root record as one element of the flat stream. -/
def recP : BuildRecord :=
  { core := coreP }

/-- The child record in flat form: `parent` is the back-reference dict. -/
def recQflat : BuildRecord :=
  { core := coreQ, parent := some (PVal.ref "1" "x") }

/-- The same trace as one nested root record: the whole parent record is
inlined under the `parent` key. -/
def recQnested : BuildRecord :=
  { core := coreQ, parent := some (PVal.full "1" "x" coreP) }

/-- The graph the nested ingestion actually produces. -/
def gQn : BuildGraph :=
  match from_build recQnested with
  | Except.ok g => g
  | Except.error _ => {}

/-- Cached graph holding `a → b` over nodes `a`, `b`, `c`. -/
def sCache0 : CachedGraph :=
  { g := { nodes := [("a", {}), ("b", {}), ("c", {})], edges := [("a", "b")] } }

/-- `sCache0` after its transitive reduction has been read (and cached). -/
def sCache1 : CachedGraph :=
  (readReduced sCache0).snd

/-- A memoised node flagged recursive whose raw recipe-elapsed is 7. -/
def nRec : TargetNode :=
  { attrib := { name := some "r", pid := some "1", start := some 0, endT := some 9,
                recipe := some 2, recursive := some true } }

/-- A memoised node without the `recursive` key, raw recipe-elapsed 7. -/
def nPlain : TargetNode :=
  { attrib := { name := some "p", pid := some "1", start := some 0, endT := some 9,
                recipe := some 2 } }

/-- A target record depending on a name that is never added itself. -/
def trDangling : TargetRecord :=
  { name := "t", start := some 0, endT := some 4, depends := ["u"] }

/- Lemmas about the graph primitives. -/

theorem find?_key_append {α : Type} (l1 l2 : List (String × α)) (j : String) :
    (l1 ++ l2).find? (fun kv => kv.1 == j)
      = ((l1.find? (fun kv => kv.1 == j)).orElse
          (fun _ => l2.find? (fun kv => kv.1 == j))) := by
  induction l1 with
  | nil => rfl
  | cons a l ih =>
    by_cases h : a.1 = j
    · simp [List.find?, h]
    · have hb : (a.1 == j) = false := by simpa using h
      simp [List.find?, hb, ih]

theorem find?_nodes_eq_none {α : Type} (g : PGraph α) (j : String) (h : j ∉ keys g) :
    g.nodes.find? (fun kv => kv.1 == j) = none := by
  rw [List.find?_eq_none]
  intro kv hkv
  simp only [beq_iff_eq]
  intro hEq
  exact h (hEq ▸ List.mem_map_of_mem Prod.fst hkv)

theorem attrOf_not_mem {α : Type} [Inhabited α] (g : PGraph α) (j : String)
    (h : j ∉ keys g) : attrOf g j = default := by
  unfold attrOf
  rw [find?_nodes_eq_none g j h]

theorem keys_addNodePG_of_mem {α : Type} [Inhabited α] (g : PGraph α) (k : String)
    (h : k ∈ keys g) : addNodePG g k = g := by
  unfold addNodePG
  rw [if_pos h]

theorem keys_addNodePG_of_not_mem {α : Type} [Inhabited α] (g : PGraph α) (k : String)
    (h : k ∉ keys g) : keys (addNodePG g k) = keys g ++ [k] := by
  unfold addNodePG
  rw [if_neg h]
  simp [keys]

theorem mem_keys_addNodePG_self {α : Type} [Inhabited α] (g : PGraph α) (k : String) :
    k ∈ keys (addNodePG g k) := by
  unfold addNodePG
  split
  · assumption
  · simp [keys]

theorem mem_keys_addNodePG_of {α : Type} [Inhabited α] (g : PGraph α) (k j : String)
    (h : j ∈ keys g) : j ∈ keys (addNodePG g k) := by
  unfold addNodePG
  split
  · exact h
  · simp only [keys, List.map_append, List.mem_append]
    exact Or.inl h

theorem attrOf_addNodePG {α : Type} [Inhabited α] (g : PGraph α) (k j : String) :
    attrOf (addNodePG g k) j = attrOf g j := by
  unfold addNodePG
  split
  · rfl
  · rename_i hk
    unfold attrOf
    rw [find?_key_append]
    rcases hf : g.nodes.find? (fun kv => kv.1 == j) with _ | kv <;> rw [hf]
    · by_cases hjk : k = j
      · subst hjk
        simp [Option.orElse, List.find?]
      · have hb : (k == j) = false := by simpa using hjk
        simp [Option.orElse, List.find?, hb]
    · simp [Option.orElse]

theorem edges_addNodePG {α : Type} [Inhabited α] (g : PGraph α) (k : String) :
    (addNodePG g k).edges = g.edges := by
  unfold addNodePG
  split <;> rfl

theorem keys_updateNodePG {α : Type} (g : PGraph α) (k : String) (f : α → α) :
    keys (updateNodePG g k f) = keys g := by
  unfold updateNodePG keys
  rw [List.map_map]
  congr 1
  funext kv
  by_cases h : kv.1 = k <;> simp [h]

theorem edges_updateNodePG {α : Type} (g : PGraph α) (k : String) (f : α → α) :
    (updateNodePG g k f).edges = g.edges := rfl

theorem find?_map_update_ne {α : Type} (k j : String) (f : α → α) (h : j ≠ k)
    (l : List (String × α)) :
    (l.map (fun kv => if kv.1 == k then (kv.1, f kv.2) else kv)).find?
        (fun kv => kv.1 == j)
      = l.find? (fun kv => kv.1 == j) := by
  induction l with
  | nil => rfl
  | cons a l ih =>
    rw [List.map_cons]
    by_cases hak : a.1 = k
    · have hbt : (a.1 == k) = true := by simpa using hak
      have haj : ¬((a.1 == j) = true) := by
        simp only [beq_iff_eq]
        intro hEq
        exact h (by rw [← hEq, hak])
      have hLeft : List.find? (fun kv => kv.1 == j)
            ((a.1, f a.2) :: l.map (fun kv => if kv.1 == k then ((kv.1 : String), f kv.2) else kv))
          = List.find? (fun kv => kv.1 == j)
              (l.map (fun kv => if kv.1 == k then ((kv.1 : String), f kv.2) else kv)) :=
        List.find?_cons_of_neg _ (by simpa using haj)
      have hRight : List.find? (fun kv => kv.1 == j) (a :: l)
          = List.find? (fun kv => kv.1 == j) l :=
        List.find?_cons_of_neg _ haj
      rw [if_pos hbt, hLeft, hRight]
      exact ih
    · have hb : (a.1 == k) = false := by simpa using hak
      have hnb : ¬((a.1 == k) = true) := by simp [hb]
      rw [if_neg hnb]
      by_cases haj : a.1 = j
      · have hLeft : List.find? (fun kv => kv.1 == j)
              (a :: l.map (fun kv => if kv.1 == k then ((kv.1 : String), f kv.2) else kv))
            = some a :=
          List.find?_cons_of_pos _ (by simpa using haj)
        have hRight : List.find? (fun kv => kv.1 == j) (a :: l) = some a :=
          List.find?_cons_of_pos _ (by simpa using haj)
        rw [hLeft, hRight]
      · have hLeft : List.find? (fun kv => kv.1 == j)
              (a :: l.map (fun kv => if kv.1 == k then ((kv.1 : String), f kv.2) else kv))
            = List.find? (fun kv => kv.1 == j)
                (l.map (fun kv => if kv.1 == k then ((kv.1 : String), f kv.2) else kv)) :=
          List.find?_cons_of_neg _ (by simpa using haj)
        have hRight : List.find? (fun kv => kv.1 == j) (a :: l)
            = List.find? (fun kv => kv.1 == j) l :=
          List.find?_cons_of_neg _ (by simpa using haj)
        rw [hLeft, hRight]
        exact ih

theorem attrOf_updateNodePG_ne {α : Type} [Inhabited α] (g : PGraph α) (k : String)
    (f : α → α) (j : String) (h : j ≠ k) :
    attrOf (updateNodePG g k f) j = attrOf g j := by
  unfold attrOf updateNodePG
  rw [find?_map_update_ne k j f h]

theorem attrOf_addEdgePG {α : Type} [Inhabited α] (g : PGraph α) (u v j : String) :
    attrOf (addEdgePG g u v) j = attrOf g j := by
  unfold addEdgePG
  split <;> simp [attrOf, attrOf_addNodePG, attrOf_addNodePG (addNodePG g u) v j] <;>
    rw [← attrOf, ← attrOf, attrOf_addNodePG, attrOf_addNodePG]

theorem keys_addEdgePG {α : Type} [Inhabited α] (g : PGraph α) (u v : String) :
    keys (addEdgePG g u v) = keys (addNodePG (addNodePG g u) v) := by
  unfold addEdgePG
  split <;> rfl

theorem mem_keys_addEdgePG_of {α : Type} [Inhabited α] (g : PGraph α) (u v j : String)
    (h : j ∈ keys g) : j ∈ keys (addEdgePG g u v) := by
  rw [keys_addEdgePG]
  exact mem_keys_addNodePG_of _ _ _ (mem_keys_addNodePG_of _ _ _ h)

theorem mem_keys_addEdgePG_right {α : Type} [Inhabited α] (g : PGraph α) (u v : String) :
    v ∈ keys (addEdgePG g u v) := by
  rw [keys_addEdgePG]
  exact mem_keys_addNodePG_self _ _

theorem mem_edges_addEdgePG_self {α : Type} [Inhabited α] (g : PGraph α) (u v : String) :
    (u, v) ∈ (addEdgePG g u v).edges := by
  unfold addEdgePG
  split
  · assumption
  · simp

theorem mem_edges_addEdgePG_of {α : Type} [Inhabited α] (g : PGraph α) (u v : String)
    (e : String × String) (h : e ∈ g.edges) : e ∈ (addEdgePG g u v).edges := by
  unfold addEdgePG
  have he : e ∈ (addNodePG (addNodePG g u) v).edges := by
    rw [edges_addNodePG, edges_addNodePG]; exact h
  split
  · exact he
  · simp only [List.mem_append]
    exact Or.inl he

theorem string_append_left_cancel (s a b : String) (h : s ++ a = s ++ b) : a = b := by
  have hd : s.data ++ a.data = s.data ++ b.data := by
    simpa using congrArg String.data h
  have hab : a.data = b.data := List.append_cancel_left hd
  cases a
  cases b
  exact congrArg String.mk hab

theorem nodekey_name_inj (pid a b : String) (h : nodekey pid a = nodekey pid b) :
    a = b := by
  unfold nodekey at h
  exact string_append_left_cancel _ _ _ h

/- Lemmas about `heaviest_child` and `heaviest_path`. -/

theorem pyMaxAux_spec {α : Type} (f : α → Int) (l : List α) :
    ∀ b : α, (pyMaxAux f b l = b ∨ pyMaxAux f b l ∈ l) ∧
      f b ≤ f (pyMaxAux f b l) ∧ ∀ w ∈ l, f w ≤ f (pyMaxAux f b l) := by
  induction l with
  | nil => intro b; simp [pyMaxAux]
  | cons a l ih =>
    intro b
    simp only [pyMaxAux]
    rcases ih (if f a > f b then a else b) with ⟨hmem, hle, hall⟩
    have hble : f b ≤ f (if f a > f b then a else b) := by
      split
      · rename_i hgt; omega
      · exact le_refl _
    have hale : f a ≤ f (if f a > f b then a else b) := by
      split
      · exact le_refl _
      · rename_i hgt; omega
    refine ⟨?_, le_trans hble hle, ?_⟩
    · rcases hmem with h | h
      · rw [h]
        split
        · exact Or.inr (List.mem_cons_self _ _)
        · exact Or.inl rfl
      · exact Or.inr (List.mem_cons_of_mem a h)
    · intro w hw
      rcases List.mem_cons.mp hw with h | h
      · subst h; exact le_trans hale hle
      · exact hall w h

theorem pyMax_eq_none_iff {α : Type} (f : α → Int) (l : List α) :
    pyMax f l = none ↔ l = [] := by
  cases l <;> simp [pyMax]

theorem pyMax_mem {α : Type} (f : α → Int) (l : List α) (x : α)
    (h : pyMax f l = some x) : x ∈ l := by
  cases l with
  | nil => cases h
  | cons a l =>
    have hx : pyMaxAux f a l = x := by
      simpa [pyMax] using h
    rcases (pyMaxAux_spec f l a).1 with hm | hm
    · rw [← hx, hm]; exact List.mem_cons_self _ _
    · rw [← hx]; exact List.mem_cons_of_mem a hm

theorem pyMax_le {α : Type} (f : α → Int) (l : List α) (x : α)
    (h : pyMax f l = some x) : ∀ w ∈ l, f w ≤ f x := by
  cases l with
  | nil => intro w hw; cases hw
  | cons a l =>
    have hx : pyMaxAux f a l = x := by
      simpa [pyMax] using h
    intro w hw
    rcases List.mem_cons.mp hw with hw | hw
    · subst hw; rw [← hx]; exact (pyMaxAux_spec f l w).2.1
    · rw [← hx]; exact (pyMaxAux_spec f l a).2.2 w hw

theorem heaviest_child_stepRel (g : PGraph TAttrib) (u v : String)
    (h : heaviest_child g u = some v) : stepRel g u v :=
  ⟨pyMax_mem _ _ _ h, pyMax_le _ _ _ h⟩

theorem heaviest_child_none (g : PGraph TAttrib) (u : String)
    (h : heaviest_child g u = none) : reducedSuccessors g u = [] :=
  (pyMax_eq_none_iff _ _).mp h

theorem mem_reducedSuccessors_edge {α : Type} (g : PGraph α) (u v : String)
    (h : v ∈ reducedSuccessors g u) : (u, v) ∈ g.edges := by
  unfold reducedSuccessors at h
  rcases List.mem_map.mp h with ⟨e, he, hsnd⟩
  rcases List.mem_filter.mp he with ⟨he1, he2⟩
  have he3 : e ∈ g.edges := (List.mem_filter.mp he1).1
  obtain ⟨e1, e2⟩ := e
  have h1 : e1 = u := by simpa using he2
  have h2 : e2 = v := hsnd
  rw [← h1, ← h2]
  exact he3

theorem wf_edge_mem {α : Type} (g : PGraph α) (hwf : wfB g = true)
    (e : String × String) (he : e ∈ g.edges) : e.1 ∈ keys g ∧ e.2 ∈ keys g := by
  unfold wfB at hwf
  rw [Bool.and_eq_true] at hwf
  have h1 := List.all_eq_true.mp hwf.1 e he
  rw [Bool.and_eq_true] at h1
  constructor
  · simpa using h1.1
  · simpa using h1.2

theorem wf_key_ne {α : Type} (g : PGraph α) (hwf : wfB g = true) (k : String)
    (hk : k ∈ keys g) : ¬(k = "") := by
  unfold wfB at hwf
  rw [Bool.and_eq_true] at hwf
  have h2 := List.all_eq_true.mp hwf.2 k hk
  simpa using h2

theorem heaviestPathAux_head (g : PGraph TAttrib) (fuel : Nat) (start : String)
    (h : fuel ≠ 0) : (heaviestPathAux g fuel start).head? = some start := by
  cases fuel with
  | zero => exact absurd rfl h
  | succ fuel => simp [heaviestPathAux]

theorem heaviestPathAux_chain (g : PGraph TAttrib) :
    ∀ (fuel : Nat) (start : String),
      List.Chain' (stepRel g) (heaviestPathAux g fuel start) := by
  intro fuel
  induction fuel with
  | zero => intro start; simp [heaviestPathAux]
  | succ fuel ih =>
    intro start
    rcases hc : heaviest_child g start with _ | s
    · simp [heaviestPathAux, hc]
    · by_cases hs : (s == "") = true
      · simp [heaviestPathAux, hc, hs]
      · have hsf : (s == "") = false := by simpa using hs
        have hstep := heaviest_child_stepRel g start s hc
        simp only [heaviestPathAux, hc, hsf]
        rw [if_neg Bool.false_ne_true, List.chain'_cons']
        refine ⟨?_, ih s⟩
        intro y hy
        cases fuel with
        | zero => simp [heaviestPathAux] at hy
        | succ fuel =>
          have hys : y = s := by
            rw [heaviestPathAux_head g _ s (Nat.succ_ne_zero _)] at hy
            exact (by simpa using hy : s = y).symm
          rw [hys]
          exact hstep

theorem heaviestPathAux_subset (g : PGraph TAttrib) (hwf : wfB g = true) :
    ∀ (fuel : Nat) (start : String), start ∈ keys g →
      ∀ x ∈ heaviestPathAux g fuel start, x ∈ keys g := by
  intro fuel
  induction fuel with
  | zero => intro start hs x hx; simp [heaviestPathAux] at hx
  | succ fuel ih =>
    intro start hs x hx
    rcases hc : heaviest_child g start with _ | s
    · simp [heaviestPathAux, hc] at hx
      rw [hx]; exact hs
    · have hmem : s ∈ keys g := by
        have hedge := mem_reducedSuccessors_edge g start s
          (heaviest_child_stepRel g start s hc).1
        exact (wf_edge_mem g hwf _ hedge).2
      by_cases hs0 : (s == "") = true
      · simp [heaviestPathAux, hc, hs0] at hx
        rw [hx]; exact hs
      · have hsf : (s == "") = false := by simpa using hs0
        simp only [heaviestPathAux, hc, hsf] at hx
        rw [if_neg Bool.false_ne_true] at hx
        rcases List.mem_cons.mp hx with h | h
        · rw [h]; exact hs
        · exact ih s hmem x h

theorem heaviestPathAux_last (g : PGraph TAttrib) (hwf : wfB g = true) :
    ∀ (fuel : Nat) (start : String), start ∈ keys g →
      (heaviestPathAux g fuel start).length < fuel →
      ∀ l, (heaviestPathAux g fuel start).getLast? = some l →
        heaviest_child g l = none := by
  intro fuel
  induction fuel with
  | zero =>
    intro start hs hlen l hl
    exact absurd hlen (Nat.not_lt_zero _)
  | succ fuel ih =>
    intro start hs hlen l hl
    rcases hc : heaviest_child g start with _ | s
    · simp [heaviestPathAux, hc] at hl
      rw [← hl]; exact hc
    · have hmem : s ∈ keys g := by
        have hedge := mem_reducedSuccessors_edge g start s
          (heaviest_child_stepRel g start s hc).1
        exact (wf_edge_mem g hwf _ hedge).2
      have hsf : (s == "") = false := by
        simpa using wf_key_ne g hwf s hmem
      simp only [heaviestPathAux, hc, hsf] at hl hlen
      rw [if_neg Bool.false_ne_true] at hl hlen
      have hlen2 : (heaviestPathAux g fuel s).length < fuel := by
        simpa using hlen
      have hne : heaviestPathAux g fuel s ≠ [] := by
        cases fuel with
        | zero => exact absurd hlen2 (Nat.not_lt_zero _)
        | succ fuel => simp [heaviestPathAux]
      rcases ht : (heaviestPathAux g fuel s).getLast? with _ | y
      · exact absurd (List.getLast?_eq_none_iff.mp ht) hne
      · have hcons : (start :: heaviestPathAux g fuel s).getLast? = some y := by
          rw [List.getLast?_cons, ht]; rfl
        rw [hcons] at hl
        have hy : y = l := by simpa using hl
        have := ih s hmem hlen2 y ht
        rwa [hy] at this

theorem chain_stepRel_nodup (g : PGraph TAttrib) (rank : String → Nat)
    (hrank : ∀ e ∈ g.edges, rank e.1 < rank e.2) (p : List String)
    (hc : List.Chain' (stepRel g) p) : p.Nodup := by
  have hlt : List.Chain' (fun a b => rank a < rank b) p :=
    hc.imp (fun a b hab => hrank (a, b) (mem_reducedSuccessors_edge g a b hab.1))
  haveI : IsTrans String (fun a b => rank a < rank b) :=
    ⟨fun _ _ _ h1 h2 => lt_trans h1 h2⟩
  have hpw : p.Pairwise (fun a b => rank a < rank b) :=
    List.chain'_iff_pairwise.mp hlt
  exact hpw.imp (fun h heq => by subst heq; exact lt_irrefl _ h)

theorem nodup_subset_length {l l2 : List String} (hn : l.Nodup)
    (hs : ∀ x ∈ l, x ∈ l2) : l.length ≤ l2.length :=
  (hn.subperm (by intro x hx; exact hs x hx)).length_le

theorem heaviestPathAux_length (g : PGraph TAttrib) :
    ∀ (fuel : Nat) (start : String), (heaviestPathAux g fuel start).length ≤ fuel := by
  intro fuel
  induction fuel with
  | zero => intro start; simp [heaviestPathAux]
  | succ fuel ih =>
    intro start
    rcases hc : heaviest_child g start with _ | s
    · simp [heaviestPathAux, hc]
    · by_cases hs0 : (s == "") = true
      · simp [heaviestPathAux, hc, hs0]
      · have hsf : (s == "") = false := by simpa using hs0
        simp only [heaviestPathAux, hc, hsf]
        rw [if_neg Bool.false_ne_true]
        simp only [List.length_cons]
        exact Nat.succ_le_succ (ih s)

/-- C1: on every well-formed acyclic target graph (acyclicity witnessed by
a topological rank) and every start node in it, `heaviest_path` yields a
finite sequence that begins at the start, repeats no key, whose every step
goes to a reduced-graph successor of maximal elapsed time among that
node's reduced-graph successors, and which ends exactly at a node with no
reduced-graph successors; with no explicit start the sequence starts at
the graph's entry point. -/
theorem heaviest_path_spec (g : PGraph TAttrib) (rank : String → Nat)
    (hwf : wfB g = true) (hrank : ∀ e ∈ g.edges, rank e.1 < rank e.2)
    (start : String) (hs : start ∈ keys g) :
    (heaviest_path g start).head? = some start ∧
    (heaviest_path g start).Nodup ∧
    List.Chain' (stepRel g) (heaviest_path g start) ∧
    (∀ l, (heaviest_path g start).getLast? = some l → reducedSuccessors g l = []) ∧
    (∀ k, entryCompute g validTarget = Except.ok k →
      heaviestPathDefault g = Except.ok (heaviest_path g k)) := by
  have hne : ¬((start == "") = true) := by
    simpa using wf_key_ne g hwf start hs
  have hpath : heaviest_path g start = heaviestPathAux g (g.nodes.length + 1) start := by
    unfold heaviest_path
    rw [if_neg hne]
  have hchain : List.Chain' (stepRel g) (heaviest_path g start) := by
    rw [hpath]; exact heaviestPathAux_chain g _ start
  have hnodup : (heaviest_path g start).Nodup :=
    chain_stepRel_nodup g rank hrank _ hchain
  refine ⟨?_, hnodup, hchain, ?_, ?_⟩
  · rw [hpath]
    exact heaviestPathAux_head g _ start (Nat.succ_ne_zero _)
  · intro l hl
    have hsub : ∀ x ∈ heaviestPathAux g (g.nodes.length + 1) start, x ∈ keys g :=
      heaviestPathAux_subset g hwf _ start hs
    have hnodup2 : (heaviestPathAux g (g.nodes.length + 1) start).Nodup := by
      rw [hpath] at hnodup; exact hnodup
    have hlen : (heaviestPathAux g (g.nodes.length + 1) start).length
        ≤ g.nodes.length := by
      have h1 := nodup_subset_length hnodup2 hsub
      simpa [keys] using h1
    have hlt : (heaviestPathAux g (g.nodes.length + 1) start).length
        < g.nodes.length + 1 :=
      Nat.lt_succ_of_le hlen
    rw [hpath] at hl
    exact heaviest_child_none g l (heaviestPathAux_last g hwf _ start hs hlt l hl)
  · intro k hk
    unfold heaviestPathDefault
    rw [hk]
    rfl

theorem heaviest_path_spec_witness :
    wfB gHP = true ∧ (∀ e ∈ gHP.edges, rankHP e.1 < rankHP e.2) ∧
    "1:a" ∈ keys gHP ∧
    ((heaviest_path gHP "1:a").head? = some "1:a" ∧
     (heaviest_path gHP "1:a").Nodup ∧
     List.Chain' (stepRel gHP) (heaviest_path gHP "1:a") ∧
     (∀ l, (heaviest_path gHP "1:a").getLast? = some l →
       reducedSuccessors gHP l = []) ∧
     (∀ k, entryCompute gHP validTarget = Except.ok k →
       heaviestPathDefault gHP = Except.ok (heaviest_path gHP k))) :=
  ⟨by decide, by decide, by decide,
   heaviest_path_spec gHP rankHP (by decide) (by decide) "1:a" (by decide)⟩

/-- C6 (code bug): on a graph with no structurally valid node — empty, or
all nodes invalid — reading the entry point does not surface an
`EntryPointNotFound`-style condition: the raise statement references the
never-imported name `mg_exceptions`, so a `NameError` escapes instead (and
even the intended class was `TargetNotFoundError`, not a distinct
entry-point error).  When a valid node exists, the first valid node in
topological order is returned. -/
theorem entry_raises_NameError_not_EntryPointNotFound :
    entryCompute ({} : PGraph BAttrib) validBuild
        = Except.error (PyErr.nameError "mg_exceptions") ∧
    entryCompute gInvalid validBuild
        = Except.error (PyErr.nameError "mg_exceptions") ∧
    entryCompute gEntry validBuild = Except.ok "2" :=
  ⟨rfl, rfl, rfl⟩

/-- C7 (code bug): `find_target` returns matches sorted by elapsed time
ascending — the target with the smallest elapsed time first — although its
own docstring says "sorted by greatest elapsed time". -/
theorem find_target_sorts_ascending_eval :
    find_target gFT "/" none none (some "1") = Except.ok ["1:b", "1:a"] ∧
    elapsedAt gFT.targets "1:b" < elapsedAt gFT.targets "1:a" :=
  ⟨rfl, by decide⟩

/-- C8 counterexample: the no-filter failure and the zero-match failure
raise the very same error kind (`TargetNotFoundError`), so no distinct
`NoFilterCriteria` kind exists. -/
theorem find_target_no_filter_kind_counterexample :
    errKindTNF (find_target gFT "/" none none none) = true ∧
    errKindTNF (find_target gFT "/" (some "zzz") none none) = true :=
  ⟨rfl, rfl⟩

/-- C8 (amended): calling `find_target` with no filter at all fails with
`TargetNotFoundError("No filtering criteria")` — the same error class used
when supplied filters match zero targets, the two cases being
distinguished only by message. -/
theorem find_target_no_filter_raises_TargetNotFound :
    (∀ (g : BuildGraph) (cwd : String),
      find_target g cwd none none none
        = Except.error (PyErr.targetNotFound "No filtering criteria")) ∧
    find_target gFT "/" (some "zzz") none none
      = Except.error (PyErr.targetNotFound "No targets named zzz") :=
  ⟨fun _ _ => rfl, rfl⟩

/-- C9 (code bug): TopRecipes lists the `max_entries` non-recursive
targets sorted by recipe-elapsed descending, but the reported `recipe`
total and the parallelism-ratio numerator are the sum of the selected
targets' plain `elapsed` values (113 here), not of their recipe-elapsed
values (41) as the claim states. -/
theorem top_recipes_recipe_total_sums_elapsed :
    topRecipesGen gTR 2 = Except.ok
      { total := 100, recipeTotal := 113, jobsField := some (some 4),
        ratNum := some 113, ratDen := some 100, rows := [taC, taA] } ∧
    ((gTR.targets.nodes.map Prod.snd).filter
        (fun a => !(a.recursive.getD false)) |>.map infoElapsedRecipe).sum = 41 ∧
    (113 : Int) ≠ 41 :=
  ⟨rfl, rfl, by decide⟩

/-- C3 (code bug): with explicit waypoints, the hop between consecutive
waypoints compares `info(next_segment[1]).elapsed` against the bare info
object of the candidate's second node (the `.elapsed` is missing in the
source), so as soon as two simple paths connect a waypoint pair the
comparison raises `TypeError` instead of selecting the segment whose
second node has the greatest elapsed time.  (The no-waypoint critical path
works.) -/
theorem find_path_second_hop_TypeError :
    find_path gFP ["1:a", "1:b"] = Except.error PyErr.typeError ∧
    all_simple_paths gFP.targets "1:a" "1:b"
      = Except.ok [["1:a", "1:b"], ["1:a", "1:c", "1:b"]] ∧
    find_path gFP [] = Except.ok ["1:e", "1:a", "1:c", "1:b"] :=
  ⟨rfl, rfl, rfl⟩

theorem readElapsedRecipe_coherent (n : TargetNode) (hc : coherentN n) :
    (readElapsedRecipe n).fst = elapsedRecipeOf n.attrib := by
  obtain ⟨h1, h2, h3, h4, h5⟩ := hc
  rcases h5 with h5 | h5
  · rcases h2 with h2 | h2 <;> rcases h4 with h4 | h4 <;>
      simp [readElapsedRecipe, readEnd, readRecipe, h5, h2, h4, elapsedRecipeOf]
  · simp [readElapsedRecipe, h5]

/-- C2: through the Info view, a target flagged `recursive = True` reads a
zero `elapsed_recipe` regardless of the raw value, and a target that is
not so flagged (the key holds `False`, or is absent — in which case the
`AttributeError` falls back through `__getattr__` to the raw node) reads
the raw node's `elapsed_recipe`. -/
theorem info_elapsed_recipe_correct (n : TargetNode) (hc : coherentN n) :
    (n.attrib.recursive = some true → (infoElapsedRecipeRead n).fst = 0) ∧
    (n.attrib.recursive ≠ some true →
      (infoElapsedRecipeRead n).fst = elapsedRecipeOf n.attrib) := by
  constructor
  · intro h
    simp [infoElapsedRecipeRead, h]
  · intro h
    rcases hR : n.attrib.recursive with _ | b
    · simp only [infoElapsedRecipeRead, hR]
      exact readElapsedRecipe_coherent n hc
    · cases b
      · simp only [infoElapsedRecipeRead, hR]
        exact readElapsedRecipe_coherent n hc
      · exact absurd hR h

theorem info_elapsed_recipe_correct_witness :
    coherentN nRec ∧ coherentN nPlain ∧
    (infoElapsedRecipeRead nRec).fst = 0 ∧
    (infoElapsedRecipeRead nPlain).fst = elapsedRecipeOf nPlain.attrib :=
  ⟨by decide, by decide,
   (info_elapsed_recipe_correct nRec (by decide)).1 rfl,
   (info_elapsed_recipe_correct nPlain (by decide)).2 (by decide)⟩

/-- C4 counterexample: after the transitive reduction has been read once,
adding the edge `b → c` and reading again returns the stale cached
reduction, not the reduction of the mutated graph — `networkx` mutators do
not invalidate the `_reduced`/`_entry` caches. -/
theorem graph_cache_stale_counterexample :
    (readReduced (addEdgeC sCache1 "b" "c")).fst
      ≠ reducedEdges (addEdgeC sCache1 "b" "c").g := by
  decide

/-- C4 (amended): node-level caches are invalidated by every attribute
write — after `__setitem__` each derived read recomputes from the new
attribute dict.  Graph-level caches are NOT invalidated by mutation:
`add_edge`/`add_node` leave `_reduced` and `_entry` untouched, and a read
reflects the mutated graph only when the cache happens to be empty
(lazily, on first read). -/
theorem cache_invalidation_spec :
    (∀ (n : TargetNode) (w : AttrWrite),
      (readStart (setItem n w)).fst = (applyWrite n.attrib w).start ∧
      (readEnd (setItem n w)).fst = (applyWrite n.attrib w).endT ∧
      (readRecipe (setItem n w)).fst = (applyWrite n.attrib w).recipe ∧
      (readElapsed (setItem n w)).fst = elapsedOf (applyWrite n.attrib w) ∧
      (readElapsedRecipe (setItem n w)).fst
        = elapsedRecipeOf (applyWrite n.attrib w)) ∧
    (∀ (s : CachedGraph) (u v : String),
      (addEdgeC s u v).cacheReduced = s.cacheReduced ∧
      (addEdgeC s u v).cacheEntry = s.cacheEntry ∧
      (addNodeC s u).cacheReduced = s.cacheReduced ∧
      (addNodeC s u).cacheEntry = s.cacheEntry) ∧
    (∀ (s : CachedGraph) (u v : String), s.cacheReduced = none →
      (readReduced (addEdgeC s u v)).fst = reducedEdges (addEdgePG s.g u v)) := by
  refine ⟨fun n w => ⟨rfl, rfl, rfl, rfl, rfl⟩,
    fun s u v => ⟨rfl, rfl, rfl, rfl⟩, ?_⟩
  intro s u v h
  simp [readReduced, addEdgeC, h]

theorem cache_invalidation_spec_witness :
    sCache0.cacheReduced = none ∧
    (readReduced (addEdgeC sCache0 "b" "c")).fst
      = reducedEdges (addEdgePG sCache0.g "b" "c") :=
  ⟨rfl, cache_invalidation_spec.2.2 sCache0 "b" "c" rfl⟩

theorem attrOf_foldl_addEdge (key pid : String) (deps : List String) :
    ∀ (tg : PGraph TAttrib) (j : String),
      attrOf (deps.foldl (fun h x => addEdgePG h key (nodekey pid x)) tg) j
        = attrOf tg j := by
  induction deps with
  | nil => intro tg j; rfl
  | cons a deps ih =>
    intro tg j
    simp only [List.foldl_cons]
    rw [ih, attrOf_addEdgePG]

theorem edges_foldl_addEdge_mono (key pid : String) (deps : List String) :
    ∀ (tg : PGraph TAttrib) (e : String × String), e ∈ tg.edges →
      e ∈ (deps.foldl (fun h x => addEdgePG h key (nodekey pid x)) tg).edges := by
  induction deps with
  | nil => intro tg e he; exact he
  | cons a deps ih =>
    intro tg e he
    simp only [List.foldl_cons]
    exact ih _ e (mem_edges_addEdgePG_of _ _ _ e he)

theorem mem_edges_foldl_addEdge (key pid : String) (deps : List String) (d : String) :
    ∀ tg : PGraph TAttrib, d ∈ deps →
      (key, nodekey pid d)
        ∈ (deps.foldl (fun h x => addEdgePG h key (nodekey pid x)) tg).edges := by
  induction deps with
  | nil => intro tg hd; cases hd
  | cons a deps ih =>
    intro tg hd
    simp only [List.foldl_cons]
    rcases List.mem_cons.mp hd with h | h
    · subst h
      exact edges_foldl_addEdge_mono key pid deps _ _ (mem_edges_addEdgePG_self _ _ _)
    · exact ih _ h

theorem keys_foldl_addEdge_mono (key pid : String) (deps : List String) :
    ∀ (tg : PGraph TAttrib) (j : String), j ∈ keys tg →
      j ∈ keys (deps.foldl (fun h x => addEdgePG h key (nodekey pid x)) tg) := by
  induction deps with
  | nil => intro tg j hj; exact hj
  | cons a deps ih =>
    intro tg j hj
    simp only [List.foldl_cons]
    exact ih _ j (mem_keys_addEdgePG_of _ _ _ _ hj)

theorem mem_keys_foldl_addEdge (key pid : String) (deps : List String) (d : String) :
    ∀ tg : PGraph TAttrib, d ∈ deps →
      nodekey pid d
        ∈ keys (deps.foldl (fun h x => addEdgePG h key (nodekey pid x)) tg) := by
  induction deps with
  | nil => intro tg hd; cases hd
  | cons a deps ih =>
    intro tg hd
    simp only [List.foldl_cons]
    rcases List.mem_cons.mp hd with h | h
    · subst h
      exact keys_foldl_addEdge_mono key pid deps _ _ (mem_keys_addEdgePG_right _ _ _)
    · exact ih _ h

/-- C10: `add_target` never fails on a dependency name that is never
itself added: it creates the dependency edge and a placeholder node (keyed
`pid:name` within the same process) whose attribute dict is empty, and
that placeholder is structurally invalid (`valid` is false). -/
theorem add_target_dangling_placeholder (tg : PGraph TAttrib) (pid dir : String)
    (t : TargetRecord) (d : String) (hd : d ∈ t.depends)
    (habsent : nodekey pid d ∉ keys tg) (hname : d ≠ t.name) :
    nodekey pid d ∈ keys (add_target tg pid dir t) ∧
    attrOf (add_target tg pid dir t) (nodekey pid d) = ({} : TAttrib) ∧
    (nodekey pid t.name, nodekey pid d) ∈ (add_target tg pid dir t).edges ∧
    validTarget (attrOf (add_target tg pid dir t) (nodekey pid d)) = false := by
  have hkey : nodekey pid d ≠ nodekey pid t.name :=
    fun h => hname (nodekey_name_inj pid d t.name h)
  have hattr : attrOf (add_target tg pid dir t) (nodekey pid d) = ({} : TAttrib) := by
    unfold add_target
    rw [attrOf_foldl_addEdge, attrOf_updateNodePG_ne _ _ _ _ hkey, attrOf_addNodePG,
      attrOf_not_mem tg _ habsent]
    rfl
  refine ⟨?_, hattr, ?_, ?_⟩
  · unfold add_target
    exact mem_keys_foldl_addEdge _ _ _ d _ hd
  · unfold add_target
    exact mem_edges_foldl_addEdge _ _ _ d _ hd
  · rw [hattr]
    rfl

/-- C5 counterexample: feeding the two-process trace as a flat stream of
two records produces a different graph than feeding it as one nested root
record — the nested parent's process node loses all its attributes and its
targets. -/
theorem nested_vs_flat_ingestion_differ :
    addBuilds {} [recP, recQflat] ≠ from_build recQnested := by
  decide

/-- C5 (amended): ingestion does not expand a nested parent record.
`add_nodes_from_build` reads only `parent["pid"]` and `parent["target"]`;
ingesting a single record whose `parent` holds a full nested parent record
leaves the parent process node with an empty attribute dict (its
attributes and targets are ignored), so the nested form does not rebuild
the graph the flat stream produces. -/
theorem nested_parent_not_expanded (b : BuildRecord) (ppid pt : String)
    (pcore : BRecCore) (es : List String) (dir : String)
    (hpar : b.parent = some (PVal.full ppid pt pcore))
    (hne : ppid ≠ b.core.pid)
    (hent : b.core.entry = some es)
    (hdir : b.core.directory = some dir) :
    (add_nodes_from_build {} b).map (fun g2 => attrOf g2.builds ppid)
        = Except.ok ({} : BAttrib) ∧
    (add_nodes_from_build {} b).map (fun g2 => keys g2.builds)
        = Except.ok [b.core.pid, ppid] := by
  have hba : attrOf (updateNodePG (addNodePG ({} : PGraph BAttrib) b.core.pid)
      b.core.pid (fun a => mergeBuildAttrib a b)) b.core.pid
      = mergeBuildAttrib default b := by
    simp [attrOf, addNodePG, updateNodePG, keys, List.find?]
  have hpid2 : (mergeBuildAttrib default b).pid = some b.core.pid := by
    simp [mergeBuildAttrib]
  have hdir2 : (mergeBuildAttrib default b).directory = some dir := by
    have hdefB : (default : BAttrib) = {} := rfl
    simp [mergeBuildAttrib, hdir, hdefB]
  have hentry2 : (mergeBuildAttrib default b).entry = some es := by
    have hdefB : (default : BAttrib) = {} := rfl
    simp [mergeBuildAttrib, hent, hdefB]
  have hek : entryKeysOf (mergeBuildAttrib default b)
      = Except.ok (if es.isEmpty then []
          else es.map (fun n => nodekey b.core.pid n)) := by
    simp only [entryKeysOf, hentry2, hpid2]
    split <;> rfl
  have hrun : add_nodes_from_build {} b = Except.ok
      { builds := addEdgePG (updateNodePG (addNodePG ({} : PGraph BAttrib) b.core.pid)
          b.core.pid (fun a => mergeBuildAttrib a b)) ppid b.core.pid,
        targets := add_parent_edges
          (b.core.targets.foldl (fun h t => add_target h b.core.pid dir t)
            ({} : PGraph TAttrib))
          (if es.isEmpty then [] else es.map (fun n => nodekey b.core.pid n))
          ppid pt } := by
    unfold add_nodes_from_build
    simp only [hpar, hba, hpid2, hdir2, hek, PVal.pid, PVal.target]
    rfl
  have hppid0 : ppid ∉ keys ({} : PGraph BAttrib) := by
    simp [keys]
  have h1 : keys (updateNodePG (addNodePG ({} : PGraph BAttrib) b.core.pid)
      b.core.pid (fun a => mergeBuildAttrib a b)) = [b.core.pid] := by
    rw [keys_updateNodePG, keys_addNodePG_of_not_mem]
    · rfl
    · simp [keys]
  have hppid1 : ppid ∉ keys (updateNodePG (addNodePG ({} : PGraph BAttrib) b.core.pid)
      b.core.pid (fun a => mergeBuildAttrib a b)) := by
    rw [h1]
    simp [hne]
  have h2 : keys (addNodePG (updateNodePG (addNodePG ({} : PGraph BAttrib) b.core.pid)
      b.core.pid (fun a => mergeBuildAttrib a b)) ppid) = [b.core.pid, ppid] := by
    rw [keys_addNodePG_of_not_mem _ _ hppid1, h1]
    rfl
  constructor
  · rw [hrun]
    simp only [Except.map]
    have hv : attrOf (addEdgePG (updateNodePG (addNodePG ({} : PGraph BAttrib)
        b.core.pid) b.core.pid (fun a => mergeBuildAttrib a b)) ppid b.core.pid)
        ppid = ({} : BAttrib) := by
      rw [attrOf_addEdgePG, attrOf_updateNodePG_ne _ _ _ _ hne, attrOf_addNodePG,
        attrOf_not_mem _ _ hppid0]
      rfl
    rw [hv]
  · rw [hrun]
    simp only [Except.map]
    rw [keys_addEdgePG]
    have h3 : addNodePG (addNodePG (updateNodePG (addNodePG ({} : PGraph BAttrib)
        b.core.pid) b.core.pid (fun a => mergeBuildAttrib a b)) ppid) b.core.pid
        = addNodePG (updateNodePG (addNodePG ({} : PGraph BAttrib) b.core.pid)
            b.core.pid (fun a => mergeBuildAttrib a b)) ppid := by
      apply keys_addNodePG_of_mem
      rw [h2]
      simp
    rw [h3, h2]

theorem nested_parent_not_expanded_witness :
    recQnested.parent = some (PVal.full "1" "x" coreP) ∧
    "1" ≠ recQnested.core.pid ∧
    recQnested.core.entry = some ["y"] ∧
    recQnested.core.directory = some "/s/sub" ∧
    ((add_nodes_from_build {} recQnested).map (fun g2 => attrOf g2.builds "1")
        = Except.ok ({} : BAttrib) ∧
     (add_nodes_from_build {} recQnested).map (fun g2 => keys g2.builds)
        = Except.ok [recQnested.core.pid, "1"]) :=
  ⟨rfl, by decide, rfl, rfl,
   nested_parent_not_expanded recQnested "1" "x" coreP ["y"] "/s/sub"
     rfl (by decide) rfl rfl⟩

theorem add_target_dangling_placeholder_witness :
    "u" ∈ trDangling.depends ∧
    nodekey "1" "u" ∉ keys ({} : PGraph TAttrib) ∧
    "u" ≠ trDangling.name ∧
    (nodekey "1" "u" ∈ keys (add_target {} "1" "/s" trDangling) ∧
     attrOf (add_target {} "1" "/s" trDangling) (nodekey "1" "u") = ({} : TAttrib) ∧
     (nodekey "1" trDangling.name, nodekey "1" "u")
       ∈ (add_target {} "1" "/s" trDangling).edges ∧
     validTarget (attrOf (add_target {} "1" "/s" trDangling) (nodekey "1" "u"))
       = false) :=
  ⟨by decide, by decide, by decide,
   add_target_dangling_placeholder {} "1" "/s" trDangling "u"
     (by decide) (by decide) (by decide)⟩

end Makegrind
